import Mathlib

set_option maxHeartbeats 1000000

namespace Dataviz

/-!
Shallow embedding of `server/dataviz_server/dispatcher.py`:
the dispatch-and-cache core (identifier validation, instance cache with
root-page-only expiry, backing-store fetch, path popping).
-/

/-- Opaque serialized application definition (the value of a record's `dashapp` field). -/
abbrev Blob := String

/-- Opaque runnable WSGI handler produced by the builder; only its identity matters. -/
abbrev Handler := Nat

/-- The parts of a WSGI environ the dispatcher reads or mutates:
`SCRIPT_NAME` and `PATH_INFO`. -/
structure Environ where
  script_name : String
  path_info : String
deriving DecidableEq

/-- Drop every leading slash (Python `s.lstrip('/')` on the character list). -/
def lstripSlashList : List Char → List Char
  | [] => []
  | c :: cs => if c = '/' then lstripSlashList cs else c :: cs

/-- The maximal run of leading slashes of a character list. -/
def leadingSlashes : List Char → List Char
  | [] => []
  | c :: cs => if c = '/' then c :: leadingSlashes cs else []

/-- werkzeug `peek_path_info`: the first `/`-delimited segment of `PATH_INFO`
after leading slashes, or `none` when that segment is empty. -/
def peek_path_info (e : Environ) : Option String :=
  let seg := (lstripSlashList e.path_info.data).takeWhile (fun c => c != '/')
  if seg = [] then none else some ⟨seg⟩

/-- werkzeug `pop_path_info`: move the first segment of `PATH_INFO` (and the
slashes before it) onto `SCRIPT_NAME`; the remaining `PATH_INFO` keeps its
leading slash. A request with empty `PATH_INFO` is left unchanged. -/
def pop_path_info (e : Environ) : Environ :=
  if e.path_info = "" then e
  else
    let stripped := lstripSlashList e.path_info.data
    let sn := e.script_name.data ++ leadingSlashes e.path_info.data
    if stripped.contains '/' then
      { script_name := ⟨sn ++ stripped.takeWhile (fun c => c != '/')⟩,
        path_info := ⟨stripped.dropWhile (fun c => c != '/')⟩ }
    else
      { script_name := ⟨sn ++ stripped⟩, path_info := "" }

/-- werkzeug `get_path_info`: the full `PATH_INFO`. -/
def get_path_info (e : Environ) : String := e.path_info

/-- Characters of the default allow-pattern class `[a-zA-Z0-9_-]`. -/
def isAllowedChar (c : Char) : Bool := c.isAlpha || c.isDigit || c == '_' || c == '-'

/-- Nonempty and made only of allowed characters: one match of `[a-zA-Z0-9_-]+`. -/
def goodName (cs : List Char) : Bool := !cs.isEmpty && cs.all isAllowedChar

/-- Python `re.match` of the compiled default pattern `^[a-zA-Z0-9_-]+$` against a
string: it matches a nonempty all-allowed string, and (because Python `$` also
matches just before one final newline) such a string followed by one `\n`. -/
def re_match_name (s : String) : Bool :=
  goodName s.data || (s.data.getLast? == some '\n' && goodName s.data.dropLast)

/-- Split a character list at its last `'/'`: `some (before, after)` with the
slash removed and no slash in `after`, or `none` when the list has no slash. -/
def breakLast : List Char → Option (List Char × List Char)
  | [] => none
  | c :: cs =>
    match breakLast cs with
    | some (a, b) => some (c :: a, b)
    | none => if c = '/' then some ([], cs) else none

/-- Python `path.rsplit('/', 2)` on the characters of `path`: split at the last
two slashes (at most), yielding one to three components. -/
def rsplitTwo (cs : List Char) : List (List Char) :=
  match breakLast cs with
  | none => [cs]
  | some (a, b) =>
    match breakLast a with
    | none => [a, b]
    | some (c, d) => [c, d, b]

/-- `Dispatcher.__is_main_page`: `splitted = path.rsplit('/', 2)` and the result is
`len(splitted) == 2 or (len(splitted) == 3 and splitted[-1] == '')`. -/
def is_main_page (e : Environ) : Bool :=
  decide ((rsplitTwo (get_path_info e).data).length = 2) ||
    (decide ((rsplitTwo (get_path_info e).data).length = 3) &&
      decide ((rsplitTwo (get_path_info e).data).getLast? = some []))

/-- Outcome of `mongo_collection.find_one({'uid': uid})` as the dispatcher sees it. -/
inductive DbOutcome
  | raise
  | missing
  | noField
  | found (blob : Blob)
deriving DecidableEq

/-- External collaborators: the backing store and the builder
(`build_dashapp_server_configs` plus `dashapp_deserializer` plus `.server`). -/
structure Env where
  db : String → DbOutcome
  build : String → Blob → Handler

/-- Python exceptions the embedded code can raise. -/
inductive PyExn
  | unboundLocalRes
deriving DecidableEq

/-- Result of running a piece of Python: a value, or an uncaught exception. -/
inductive PyResult (α : Type)
  | ok (a : α)
  | exn (e : PyExn)
deriving DecidableEq

/-- Observable effects of one dispatch: backing-store queries, builder calls, logs. -/
inductive Ev
  | dbFind (uid : String)
  | build (uid : String)
  | logWarning
  | logInfo
deriving DecidableEq

/-- One cached instance: `{'app': app, 'added': datetime.utcnow()}`. -/
structure Instance where
  app : Handler
  added : Int
deriving DecidableEq

/-- The instance cache `self.instances`, a map from tenant name to instance. -/
abbrev Cache := String → Option Instance

/-- The initial cache `self.instances = {}`. -/
def emptyCache : Cache := fun _ => none

/-- Python `del st[k]`. -/
def cacheDel (st : Cache) (k : String) : Cache := fun q => if q = k then none else st q

/-- Python `st[k] = v`. -/
def cacheSet (st : Cache) (k : String) (v : Instance) : Cache :=
  fun q => if q = k then some v else st q

/-- What `get_application` can hand back to `__call__`: the fixed api app, a
`BadRequest()` responder, or a dynamically built tenant handler. -/
inductive AppRef
  | api
  | badRequest
  | dyn (h : Handler)
deriving DecidableEq

/-- `Dispatcher.__get_app_from_db`. The `except PyMongoError` clause logs a warning
and falls through; the following `if (not res)` then reads the never-assigned
local `res`, so a raising store yields an uncaught `UnboundLocalError`. A record
without a `dashapp` field, like an absent record, yields `None` without building. -/
def get_app_from_db (env : Env) (viz_uid : String) : PyResult (Option Handler) × List Ev :=
  match env.db viz_uid with
  | .raise => (.exn .unboundLocalRes, [.dbFind viz_uid, .logWarning])
  | .missing => (.ok none, [.dbFind viz_uid])
  | .noField => (.ok none, [.dbFind viz_uid])
  | .found blob => (.ok (some (env.build viz_uid blob)), [.dbFind viz_uid, .build viz_uid])

/-- Lines 89-100 of `get_application`: `instance is None`, so fetch from the db;
on success install `{'app': app, 'added': utcnow}` under `name` and log. -/
def fetch_and_install (env : Env) (st : Cache) (now : Int) (name : String) :
    PyResult (Option AppRef) × Cache × List Ev :=
  match get_app_from_db env name with
  | (.exn ex, evs) => (.exn ex, st, evs)
  | (.ok none, evs) => (.ok none, st, evs)
  | (.ok (some h), evs) =>
    (.ok (some (.dyn h)), cacheSet st name ⟨h, now⟩, evs ++ [.logInfo])

/-- `Dispatcher.get_application`: peek the first path segment; empty means `None`;
`api` returns the fixed api app; a segment failing the allow-pattern returns
`BadRequest()`; otherwise consult the cache, expiring a cached entry only when
the request is a main page and the entry is older than the retention period, and
fetch-and-install on a (possibly just-created) miss. -/
def get_application (env : Env) (retention : Int) (st : Cache) (now : Int) (e : Environ) :
    PyResult (Option AppRef) × Cache × List Ev :=
  match peek_path_info e with
  | none => (.ok none, st, [])
  | some name =>
    if name = "api" then
      (.ok (some .api), st, [.logInfo])
    else if re_match_name name = false then
      (.ok (some .badRequest), st, [.logInfo])
    else
      match st name with
      | some i =>
        if is_main_page e = true ∧ now - i.added > retention then
          let r := fetch_and_install env (cacheDel st name) now name
          (r.1, r.2.1, Ev.logInfo :: r.2.2)
        else
          (.ok (some (.dyn i.app)), st, [])
      | none => fetch_and_install env st now name

/-- The response `__call__` produces: which application ran, and the environ it
was invoked with. `NotFound` is `self.default_app`; `badRequest` is the
`BadRequest()` instance returned by `get_application`. -/
inductive Response
  | notFound (e : Environ)
  | badRequest (e : Environ)
  | fromApi (e : Environ)
  | fromDyn (h : Handler) (e : Environ)
deriving DecidableEq

/-- `Dispatcher.__call__`: get the application; when it is not `None` pop the
leading path segment and invoke it, otherwise invoke the default not-found app
on the untouched environ. An exception from `get_application` propagates. -/
def dispatch (env : Env) (retention : Int) (st : Cache) (now : Int) (e : Environ) :
    PyResult Response × Cache × List Ev :=
  match get_application env retention st now e with
  | (.exn ex, st2, evs) => (.exn ex, st2, evs)
  | (.ok none, st2, evs) => (.ok (.notFound e), st2, evs)
  | (.ok (some a), st2, evs) =>
    let e2 := pop_path_info e
    match a with
    | .api => (.ok (.fromApi e2), st2, evs)
    | .badRequest => (.ok (.badRequest e2), st2, evs)
    | .dyn h => (.ok (.fromDyn h e2), st2, evs)

/-- Run a sequence of requests (each with its arrival time) through the
dispatcher, threading the instance cache. -/
def runRequests (env : Env) (retention : Int) : List (Int × Environ) → Cache → Cache
  | [], st => st
  | (now, e) :: rest, st => runRequests env retention rest (dispatch env retention st now e).2.1

/-- Number of slashes in a character list (spec-side characterization tool). -/
def countSlash : List Char → Nat
  | [] => 0
  | c :: cs => (if c = '/' then 1 else 0) + countSlash cs

/-- Full split of a character list on `'/'` (Python `path.split('/')` with no limit). -/
def splitChar : List Char → List (List Char)
  | [] => [[]]
  | c :: cs =>
    if c = '/' then [] :: splitChar cs
    else
      match splitChar cs with
      | [] => [[c]]
      | t :: ts => (c :: t) :: ts

/-- Join components with `'/'` (inverse of `splitChar`). -/
def joinSlash : List (List Char) → List Char
  | [] => []
  | [x] => x
  | x :: y :: ys => x ++ '/' :: joinSlash (y :: ys)

/-- The spec's description of the split: the full `/`-delimited component list,
regrouped so that only the last two delimiters separate components (at most
three components, the last two being the original last two components). -/
def lastTwoComponents (cs : List Char) : List (List Char) :=
  if (splitChar cs).length ≤ 3 then splitChar cs
  else
    joinSlash ((splitChar cs).take ((splitChar cs).length - 2)) ::
      (splitChar cs).drop ((splitChar cs).length - 2)

/-- The spec's wording of the root-page test: split the full path into at most
the last two `/`-delimited components; it is the root page iff that split yields
exactly two components, or three components where the last is empty. -/
def isRootPageSpec (e : Environ) : Bool :=
  decide ((lastTwoComponents (get_path_info e).data).length = 2) ||
    (decide ((lastTwoComponents (get_path_info e).data).length = 3) &&
      decide ((lastTwoComponents (get_path_info e).data).getLast? = some []))

/-- Backing store whose every lookup raises `PyMongoError`; builder irrelevant. -/
def envRaise : Env := { db := fun _ => .raise, build := fun _ _ => 0 }

/-- Backing store with no records at all. -/
def envMissing : Env := { db := fun _ => .missing, build := fun _ _ => 0 }

/-- Backing store holding one definition, for tenant `demo`, blob `B`. -/
def envFound : Env :=
  { db := fun u => if u = "demo" then .found "B" else .missing, build := fun _ _ => 42 }

/-- Backing store whose record for `demo` exists but has no `dashapp` field. -/
def envNoField : Env :=
  { db := fun u => if u = "demo" then .noField else .missing, build := fun _ _ => 42 }

/-- A cache holding one instance for tenant `demo`, installed at time 0. -/
def stDemo : Cache := cacheSet emptyCache "demo" ⟨7, 0⟩

theorem mem_of_getLast?_eq {cs : List Char} {c : Char} (h : cs.getLast? = some c) : c ∈ cs := by
  have hd := List.dropLast_append_getLast? c (l := cs) h
  rw [← hd]
  simp

theorem breakLast_eq_none {cs : List Char} (h : breakLast cs = none) : '/' ∉ cs := by
  induction cs with
  | nil => simp
  | cons c cs ih =>
    cases hb : breakLast cs with
    | some p =>
      obtain ⟨a, b⟩ := p
      simp only [breakLast, hb] at h
      exact Option.noConfusion h
    | none =>
      simp only [breakLast, hb] at h
      by_cases hc : c = '/'
      · simp [hc] at h
      · simp only [List.mem_cons, not_or]
        exact ⟨fun he => hc he.symm, ih hb⟩

theorem breakLast_eq_some {cs a b : List Char} (h : breakLast cs = some (a, b)) :
    cs = a ++ '/' :: b ∧ '/' ∉ b := by
  induction cs generalizing a b with
  | nil => simp [breakLast] at h
  | cons c cs ih =>
    cases hb : breakLast cs with
    | some p =>
      obtain ⟨a', b'⟩ := p
      simp only [breakLast, hb, Option.some.injEq, Prod.mk.injEq] at h
      obtain ⟨rfl, rfl⟩ := h
      obtain ⟨h1, h2⟩ := ih hb
      exact ⟨by rw [h1]; rfl, h2⟩
    | none =>
      simp only [breakLast, hb] at h
      by_cases hc : c = '/'
      · rw [if_pos hc] at h
        simp only [Option.some.injEq, Prod.mk.injEq] at h
        obtain ⟨rfl, rfl⟩ := h
        exact ⟨by simp [hc], breakLast_eq_none hb⟩
      · simp [hc] at h

theorem countSlash_append (xs ys : List Char) :
    countSlash (xs ++ ys) = countSlash xs + countSlash ys := by
  induction xs with
  | nil => simp [countSlash]
  | cons c cs ih =>
    simp only [List.cons_append, countSlash, List.append_eq, ih]
    omega

theorem countSlash_eq_zero {cs : List Char} (h : '/' ∉ cs) : countSlash cs = 0 := by
  induction cs with
  | nil => rfl
  | cons c cs ih =>
    simp only [List.mem_cons, not_or] at h
    have hc : ¬ c = '/' := fun hc => h.1 hc.symm
    simp only [countSlash, if_neg hc, ih h.2]

theorem rsplit_shape (cs : List Char) :
    ((rsplitTwo cs).length = 2 ∨
      ((rsplitTwo cs).length = 3 ∧ (rsplitTwo cs).getLast? = some ([] : List Char))) ↔
    (cs.getLast? = some '/' ∨ countSlash cs = 1) := by
  cases h : breakLast cs with
  | none =>
    have hn := breakLast_eq_none h
    have h0 := countSlash_eq_zero hn
    simp only [rsplitTwo, h, h0, List.length_singleton]
    constructor
    · rintro (h2 | ⟨h3, _⟩) <;> omega
    · rintro (hl | h1)
      · exact absurd (mem_of_getLast?_eq hl) hn
      · omega
  | some p =>
    obtain ⟨a, b⟩ := p
    obtain ⟨hcs, hb⟩ := breakLast_eq_some h
    cases h2 : breakLast a with
    | none =>
      have ha := breakLast_eq_none h2
      have hcount : countSlash cs = 1 := by
        rw [hcs, countSlash_append, countSlash_eq_zero ha]
        simp [countSlash, countSlash_eq_zero hb]
      simp [rsplitTwo, h, h2, hcount]
    | some q =>
      obtain ⟨c, d⟩ := q
      obtain ⟨hca, hd⟩ := breakLast_eq_some h2
      have hcount : 2 ≤ countSlash cs := by
        rw [hcs, hca, countSlash_append]
        simp [countSlash, countSlash_append]
        omega
      have hlast : cs.getLast? = ('/' :: b).getLast? := by
        rw [hcs, List.getLast?_append_cons]
      have hone : ¬ countSlash cs = 1 := by omega
      simp only [rsplitTwo, h, h2, List.length_cons, List.length_nil, Nat.reduceAdd,
        List.getLast?_cons_cons, List.getLast?_singleton, hone, or_false, hlast]
      constructor
      · rintro (h3 | ⟨_, h3⟩)
        · omega
        · obtain rfl : b = [] := by simpa using h3
          rfl
      · intro hl
        refine Or.inr ⟨trivial, ?_⟩
        cases b with
        | nil => rfl
        | cons b0 bs =>
          rw [List.getLast?_cons_cons] at hl
          exact absurd (mem_of_getLast?_eq hl) hb

theorem splitChar_ne_nil (cs : List Char) : ∃ t ts, splitChar cs = t :: ts := by
  induction cs with
  | nil => exact ⟨[], [], rfl⟩
  | cons c cs ih =>
    by_cases hc : c = '/'
    · exact ⟨[], splitChar cs, by simp [splitChar, hc]⟩
    · obtain ⟨t, ts, h⟩ := ih
      exact ⟨c :: t, ts, by simp [splitChar, hc, h]⟩

theorem splitChar_no_slash {cs : List Char} (h : '/' ∉ cs) : splitChar cs = [cs] := by
  induction cs with
  | nil => rfl
  | cons c cs ih =>
    simp only [List.mem_cons, not_or] at h
    have hc : ¬ c = '/' := fun hc => h.1 hc.symm
    simp [splitChar, hc, ih h.2]

theorem splitChar_append (xs ys : List Char) :
    splitChar (xs ++ '/' :: ys) = splitChar xs ++ splitChar ys := by
  induction xs with
  | nil => simp [splitChar]
  | cons c cs ih =>
    by_cases hc : c = '/'
    · simp [splitChar, hc, ih]
    · obtain ⟨t, ts, h⟩ := splitChar_ne_nil cs
      simp [splitChar, hc, ih, h]

theorem joinSlash_splitChar (cs : List Char) : joinSlash (splitChar cs) = cs := by
  induction cs with
  | nil => rfl
  | cons c cs ih =>
    obtain ⟨t, ts, h⟩ := splitChar_ne_nil cs
    by_cases hc : c = '/'
    · subst hc
      have h1 : splitChar ('/' :: cs) = [] :: splitChar cs := by simp [splitChar]
      rw [h1, h, joinSlash, ← h, ih]
      rfl
    · have h1 : splitChar (c :: cs) = (c :: t) :: ts := by simp [splitChar, hc, h]
      rw [h1]
      cases ts with
      | nil =>
        have htc : t = cs := by
          rw [h] at ih
          simpa [joinSlash] using ih
        simp [joinSlash, htc]
      | cons y ys =>
        have h2 : joinSlash ((c :: t) :: y :: ys) = (c :: t) ++ '/' :: joinSlash (y :: ys) := rfl
        have h3 : joinSlash (t :: y :: ys) = t ++ '/' :: joinSlash (y :: ys) := rfl
        rw [h] at ih
        rw [h3] at ih
        rw [h2, List.cons_append, ih]

theorem rsplitTwo_eq_lastTwo (cs : List Char) : rsplitTwo cs = lastTwoComponents cs := by
  cases h : breakLast cs with
  | none =>
    have hn := breakLast_eq_none h
    simp [rsplitTwo, h, lastTwoComponents, splitChar_no_slash hn]
  | some p =>
    obtain ⟨a, b⟩ := p
    obtain ⟨hcs, hb⟩ := breakLast_eq_some h
    cases h2 : breakLast a with
    | none =>
      have ha := breakLast_eq_none h2
      have hsplit : splitChar cs = [a, b] := by
        rw [hcs, splitChar_append, splitChar_no_slash ha, splitChar_no_slash hb]
        rfl
      simp [rsplitTwo, h, h2, lastTwoComponents, hsplit]
    | some q =>
      obtain ⟨c, d⟩ := q
      obtain ⟨hca, hd⟩ := breakLast_eq_some h2
      have hsplit : splitChar cs = splitChar c ++ [d, b] := by
        rw [hcs, hca]
        have hx : (c ++ '/' :: d) ++ '/' :: b = c ++ '/' :: (d ++ '/' :: b) := by simp
        rw [hx, splitChar_append, splitChar_append, splitChar_no_slash hd,
          splitChar_no_slash hb]
        rfl
      obtain ⟨t, ts, ht⟩ := splitChar_ne_nil c
      cases ts with
      | nil =>
        have htc : t = c := by
          have hj := joinSlash_splitChar c
          rw [ht] at hj
          simpa [joinSlash] using hj
        subst htc
        have hsplit3 : splitChar cs = [t, d, b] := by rw [hsplit, ht]; rfl
        simp [rsplitTwo, h, h2, lastTwoComponents, hsplit3]
      | cons y ys =>
        have hlen : (splitChar cs).length = (splitChar c).length + 2 := by
          rw [hsplit]
          simp
        have hlen2 : 2 ≤ (splitChar c).length := by
          rw [ht]
          simp only [List.length_cons]
          omega
        have hgt : ¬ (splitChar cs).length ≤ 3 := by omega
        have hsub : (splitChar cs).length - 2 = (splitChar c).length := by omega
        have htake : (splitChar cs).take ((splitChar cs).length - 2) = splitChar c := by
          rw [hsub, hsplit, List.take_left]
        have hdrop : (splitChar cs).drop ((splitChar cs).length - 2) = [d, b] := by
          rw [hsub, hsplit, List.drop_left]
        simp only [rsplitTwo, h, h2, lastTwoComponents]
        rw [if_neg hgt, htake, hdrop, joinSlash_splitChar]

theorem decideOr (p q : Prop) [Decidable p] [Decidable q] :
    decide (p ∨ q) = (decide p || decide q) := by
  by_cases hp : p <;> by_cases hq : q <;> simp [hp, hq]

theorem decideAnd (p q : Prop) [Decidable p] [Decidable q] :
    decide (p ∧ q) = (decide p && decide q) := by
  by_cases hp : p <;> by_cases hq : q <;> simp [hp, hq]

theorem fi_raise {env : Env} {st : Cache} {now : Int} {name : String}
    (hdb : env.db name = .raise) :
    fetch_and_install env st now name =
      (.exn .unboundLocalRes, st, [.dbFind name, .logWarning]) := by
  simp [fetch_and_install, get_app_from_db, hdb]

theorem fi_missing {env : Env} {st : Cache} {now : Int} {name : String}
    (hdb : env.db name = .missing) :
    fetch_and_install env st now name = (.ok none, st, [.dbFind name]) := by
  simp [fetch_and_install, get_app_from_db, hdb]

theorem fi_noField {env : Env} {st : Cache} {now : Int} {name : String}
    (hdb : env.db name = .noField) :
    fetch_and_install env st now name = (.ok none, st, [.dbFind name]) := by
  simp [fetch_and_install, get_app_from_db, hdb]

theorem fi_found {env : Env} {st : Cache} {now : Int} {name : String} {blob : Blob}
    (hdb : env.db name = .found blob) :
    fetch_and_install env st now name =
      (.ok (some (.dyn (env.build name blob))), cacheSet st name ⟨env.build name blob, now⟩,
       [.dbFind name, .build name, .logInfo]) := by
  simp [fetch_and_install, get_app_from_db, hdb]

theorem ga_empty {env : Env} {ret : Int} {st : Cache} {now : Int} {e : Environ}
    (hp : peek_path_info e = none) :
    get_application env ret st now e = (.ok none, st, []) := by
  simp [get_application, hp]

theorem ga_api {env : Env} {ret : Int} {st : Cache} {now : Int} {e : Environ}
    (hp : peek_path_info e = some "api") :
    get_application env ret st now e = (.ok (some .api), st, [.logInfo]) := by
  simp [get_application, hp]

theorem ga_badname {env : Env} {ret : Int} {st : Cache} {now : Int} {e : Environ} {name : String}
    (hp : peek_path_info e = some name) (hapi : name ≠ "api")
    (hm : re_match_name name = false) :
    get_application env ret st now e = (.ok (some .badRequest), st, [.logInfo]) := by
  simp [get_application, hp, hapi, hm]

theorem ga_miss {env : Env} {ret : Int} {st : Cache} {now : Int} {e : Environ} {name : String}
    (hp : peek_path_info e = some name) (hapi : name ≠ "api")
    (hm : re_match_name name = true) (hc : st name = none) :
    get_application env ret st now e = fetch_and_install env st now name := by
  simp [get_application, hp, hapi, hm, hc]

theorem ga_hit {env : Env} {ret : Int} {st : Cache} {now : Int} {e : Environ} {name : String}
    {i : Instance} (hp : peek_path_info e = some name) (hapi : name ≠ "api")
    (hm : re_match_name name = true) (hc : st name = some i)
    (hex : ¬ (is_main_page e = true ∧ now - i.added > ret)) :
    get_application env ret st now e = (.ok (some (.dyn i.app)), st, []) := by
  simp only [get_application, hp, hm]
  rw [if_neg hapi]
  simp only [Bool.true_eq_false, if_false, hc]
  rw [if_neg hex]

theorem ga_expired {env : Env} {ret : Int} {st : Cache} {now : Int} {e : Environ} {name : String}
    {i : Instance} (hp : peek_path_info e = some name) (hapi : name ≠ "api")
    (hm : re_match_name name = true) (hc : st name = some i)
    (hroot : is_main_page e = true) (hage : now - i.added > ret) :
    get_application env ret st now e =
      ((fetch_and_install env (cacheDel st name) now name).1,
       (fetch_and_install env (cacheDel st name) now name).2.1,
       Ev.logInfo :: (fetch_and_install env (cacheDel st name) now name).2.2) := by
  simp only [get_application, hp, hm]
  rw [if_neg hapi]
  simp only [Bool.true_eq_false, if_false, hc]
  rw [if_pos ⟨hroot, hage⟩]

theorem dispatch_cache (env : Env) (ret : Int) (st : Cache) (now : Int) (e : Environ) :
    (dispatch env ret st now e).2.1 = (get_application env ret st now e).2.1 := by
  unfold dispatch
  rcases hga : get_application env ret st now e with ⟨r, st2, evs⟩
  rcases r with a | ex
  · rcases a with _ | a
    · rfl
    · rcases a with _ | _ | hh <;> rfl
  · rfl

theorem ga_cache_pointwise (env : Env) (ret : Int) (st : Cache) (now : Int) (e : Environ)
    (k : String) (h : (get_application env ret st now e).1 = .ok none) :
    (get_application env ret st now e).2.1 k = st k ∨
      (get_application env ret st now e).2.1 k = none := by
  cases hp : peek_path_info e with
  | none => rw [ga_empty hp]; exact Or.inl rfl
  | some name =>
    by_cases hapi : name = "api"
    · subst hapi
      rw [ga_api hp] at h
      exact absurd h (by simp)
    · by_cases hm : re_match_name name = false
      · rw [ga_badname hp hapi hm] at h
        exact absurd h (by simp)
      · have hm2 : re_match_name name = true := by
          cases hb : re_match_name name
          · exact absurd hb hm
          · rfl
        cases hc : st name with
        | none =>
          rw [ga_miss hp hapi hm2 hc] at h ⊢
          cases hdb : env.db name with
          | raise => rw [fi_raise hdb] at h; exact absurd h (by simp)
          | missing => rw [fi_missing hdb]; exact Or.inl rfl
          | noField => rw [fi_noField hdb]; exact Or.inl rfl
          | found blob => rw [fi_found hdb] at h; exact absurd h (by simp)
        | some i =>
          by_cases hex : is_main_page e = true ∧ now - i.added > ret
          · rw [ga_expired hp hapi hm2 hc hex.1 hex.2] at h ⊢
            cases hdb : env.db name with
            | raise => rw [fi_raise hdb] at h; exact absurd h (by simp)
            | missing =>
              rw [fi_missing hdb]
              by_cases hk : k = name
              · exact Or.inr (by simp [cacheDel, hk])
              · exact Or.inl (by simp [cacheDel, hk])
            | noField =>
              rw [fi_noField hdb]
              by_cases hk : k = name
              · exact Or.inr (by simp [cacheDel, hk])
              · exact Or.inl (by simp [cacheDel, hk])
            | found blob => rw [fi_found hdb] at h; exact absurd h (by simp)
          · rw [ga_hit hp hapi hm2 hc hex] at h
            exact absurd h (by simp)

theorem dispatch_notfound_src {env : Env} {ret : Int} {st : Cache} {now : Int} {e e2 : Environ}
    (h : (dispatch env ret st now e).1 = .ok (.notFound e2)) :
    (get_application env ret st now e).1 = .ok none ∧ e2 = e := by
  unfold dispatch at h
  rcases hga : get_application env ret st now e with ⟨r, st2, evs⟩
  rw [hga] at h
  rcases r with a | ex
  · rcases a with _ | a
    · simp only at h
      refine ⟨rfl, ?_⟩
      injection h with h1
      injection h1 with h2
      exact h2.symm
    · rcases a with _ | _ | hh <;> simp at h
  · simp at h

theorem ga_cache_key_api (env : Env) (ret : Int) (st : Cache) (now : Int) (e : Environ) :
    (get_application env ret st now e).2.1 "api" = st "api" := by
  cases hp : peek_path_info e with
  | none => rw [ga_empty hp]
  | some name =>
    by_cases hapi : name = "api"
    · subst hapi
      rw [ga_api hp]
    · have hak : ¬ ("api" = name) := fun hx => hapi hx.symm
      by_cases hm : re_match_name name = false
      · rw [ga_badname hp hapi hm]
      · have hm2 : re_match_name name = true := by
          cases hb : re_match_name name
          · exact absurd hb hm
          · rfl
        cases hc : st name with
        | none =>
          rw [ga_miss hp hapi hm2 hc]
          cases hdb : env.db name with
          | raise => rw [fi_raise hdb]
          | missing => rw [fi_missing hdb]
          | noField => rw [fi_noField hdb]
          | found blob => rw [fi_found hdb]; simp [cacheSet, hak]
        | some i =>
          by_cases hex : is_main_page e = true ∧ now - i.added > ret
          · rw [ga_expired hp hapi hm2 hc hex.1 hex.2]
            cases hdb : env.db name with
            | raise => rw [fi_raise hdb]; simp [cacheDel, hak]
            | missing => rw [fi_missing hdb]; simp [cacheDel, hak]
            | noField => rw [fi_noField hdb]; simp [cacheDel, hak]
            | found blob => rw [fi_found hdb]; simp [cacheSet, cacheDel, hak]
          · rw [ga_hit hp hapi hm2 hc hex]

theorem runRequests_api (env : Env) (ret : Int) (reqs : List (Int × Environ)) :
    ∀ st : Cache, runRequests env ret reqs st "api" = st "api" := by
  induction reqs with
  | nil => intro st; rfl
  | cons p rest ih =>
    intro st
    obtain ⟨now, e⟩ := p
    show runRequests env ret rest (dispatch env ret st now e).2.1 "api" = st "api"
    rw [ih, dispatch_cache, ga_cache_key_api]

/-- C1: evaluating the code at a request whose backing-store lookup raises a
PyMongo error. The dispatcher logs the warning but then raises
`UnboundLocalError` (the local `res` of `__get_app_from_db` is never assigned
when `find_one` raises), so a server error propagates out of the dispatch path
instead of the not-found downgrade the claim describes. -/
theorem C1_storage_error_raises :
    (dispatch envRaise 60 emptyCache 0 ⟨"", "/demo1"⟩).1 = .exn .unboundLocalRes ∧
    (dispatch envRaise 60 emptyCache 0 ⟨"", "/demo1"⟩).2.2 = [.dbFind "demo1", .logWarning] := by
  exact ⟨rfl, rfl⟩

/-- C2 counterexample: a request whose first segment `a.b` fails the
allow-pattern is answered by `BadRequest()`, yet the leading segment has been
consumed: the responder is invoked with `PATH_INFO` `/x`, not the original
`/a.b/x`, refuting the claim that Rejected responses leave the path unchanged. -/
theorem C2_counterexample :
    (dispatch envMissing 60 emptyCache 0 ⟨"", "/a.b/x"⟩).1 =
      .ok (.badRequest ⟨"/a.b", "/x"⟩) ∧
    (Environ.mk "/a.b" "/x").path_info ≠ (Environ.mk "" "/a.b/x").path_info := by
  exact ⟨rfl, by decide⟩

/-- C2 (amended): only a `NotFound` outcome (empty segment or absent tenant,
where `get_application` returns `None`) leaves the request path unchanged; every
non-`None` application — the dynamically resolved handler, the fixed api app,
and also the `BadRequest()` rejection — is invoked after `pop_path_info` has
consumed the leading segment. -/
theorem C2_amended_path_consumption (env : Env) (ret : Int) (st : Cache) (now : Int)
    (e : Environ) :
    (∀ e2, (dispatch env ret st now e).1 = .ok (.notFound e2) → e2 = e) ∧
    (∀ e2, (dispatch env ret st now e).1 = .ok (.badRequest e2) → e2 = pop_path_info e) ∧
    (∀ h e2, (dispatch env ret st now e).1 = .ok (.fromDyn h e2) → e2 = pop_path_info e) ∧
    (∀ e2, (dispatch env ret st now e).1 = .ok (.fromApi e2) → e2 = pop_path_info e) := by
  unfold dispatch
  rcases hga : get_application env ret st now e with ⟨r, st2, evs⟩
  rcases r with a | ex
  · rcases a with _ | a
    · refine ⟨?_, ?_, ?_, ?_⟩ <;> intro e2 <;> try intro e3
      all_goals simp_all
    · rcases a with _ | _ | hh <;> refine ⟨?_, ?_, ?_, ?_⟩ <;> intro e2 <;> try intro e3
      all_goals simp_all
  · refine ⟨?_, ?_, ?_, ?_⟩ <;> intro e2 <;> try intro e3
    all_goals simp_all

/-- C2 amended witness at a concrete not-found request. -/
theorem C2_amended_witness : (Environ.mk "" "/demo") = (Environ.mk "" "/demo") :=
  (C2_amended_path_consumption envMissing 60 emptyCache 0 ⟨"", "/demo"⟩).1
    ⟨"", "/demo"⟩ rfl

/-- C3 counterexample: a root-page request for tenant `demo`, whose cached entry
is expired and whose definition is gone from the store, is answered not-found,
yet the cache is mutated: the expired entry has been discarded. -/
theorem C3_counterexample :
    (dispatch envMissing 60 stDemo 100 ⟨"", "/demo"⟩).1 = .ok (.notFound ⟨"", "/demo"⟩) ∧
    stDemo "demo" = some ⟨7, 0⟩ ∧
    (dispatch envMissing 60 stDemo 100 ⟨"", "/demo"⟩).2.1 "demo" = none := by
  exact ⟨rfl, rfl, rfl⟩

/-- C3 (amended): a request with an empty path segment returns not-found with
the cache exactly unchanged; any request answered not-found installs nothing —
every key's entry is either unchanged or absent afterwards (the only possible
mutation is discarding the requested tenant's expired entry on a root-page
request). -/
theorem C3_amended_no_install (env : Env) (ret : Int) (st : Cache) (now : Int) (e : Environ) :
    (peek_path_info e = none → dispatch env ret st now e = (.ok (.notFound e), st, [])) ∧
    (∀ e2, (dispatch env ret st now e).1 = .ok (.notFound e2) →
      ∀ k, (dispatch env ret st now e).2.1 k = st k ∨
        (dispatch env ret st now e).2.1 k = none) := by
  constructor
  · intro hp
    unfold dispatch
    rw [ga_empty hp]
  · intro e2 h k
    rw [dispatch_cache]
    exact ga_cache_pointwise env ret st now e k (dispatch_notfound_src h).1

/-- C3 amended witness at a concrete empty-path request. -/
theorem C3_amended_witness :
    dispatch envMissing 60 emptyCache 0 ⟨"", "/"⟩ =
      (.ok (.notFound ⟨"", "/"⟩), emptyCache, []) :=
  (C3_amended_no_install envMissing 60 emptyCache 0 ⟨"", "/"⟩).1 rfl

/-- C4: for a tenant cached at time `i.added` with retention period `ret`, a
root-page request strictly older than the retention period discards the entry
and rebuilds, installing a new entry stamped with the rebuild time `now`; any
other request (non-root, or age at most the retention period) returns the
cached handler and leaves the cache and trace untouched. -/
theorem C4_retention_policy (env : Env) (ret : Int) (st : Cache) (now : Int) (e : Environ)
    (name : String) (i : Instance) (blob : Blob)
    (hp : peek_path_info e = some name) (hapi : name ≠ "api")
    (hm : re_match_name name = true) (hc : st name = some i) :
    (is_main_page e = true → now - i.added > ret → env.db name = .found blob →
      get_application env ret st now e =
        (.ok (some (.dyn (env.build name blob))),
         cacheSet (cacheDel st name) name ⟨env.build name blob, now⟩,
         [.logInfo, .dbFind name, .build name, .logInfo])) ∧
    (¬ (is_main_page e = true ∧ now - i.added > ret) →
      get_application env ret st now e = (.ok (some (.dyn i.app)), st, [])) := by
  constructor
  · intro hroot hage hdb
    rw [ga_expired hp hapi hm hc hroot hage, fi_found hdb]
  · intro hex
    exact ga_hit hp hapi hm hc hex

/-- C4 witness: the expiry conjunct exercised at a concrete expired root-page
request (installed at 0, retention 60, request at 100). -/
theorem C4_retention_policy_witness :
    get_application envFound 60 stDemo 100 ⟨"", "/demo"⟩ =
      (.ok (some (.dyn 42)), cacheSet (cacheDel stDemo "demo") "demo" ⟨42, 100⟩,
       [.logInfo, .dbFind "demo", .build "demo", .logInfo]) :=
  (C4_retention_policy envFound 60 stDemo 100 ⟨"", "/demo"⟩ "demo" ⟨7, 0⟩ "B"
    rfl (by decide) (by decide) rfl).1 rfl (by decide) rfl

/-- C5 counterexample: the path `/demo/assets/` has the non-empty remainder
`assets/` after the tenant segment, yet `__is_main_page` classifies it as a
root page (its rsplit ends in an empty component), and the age check does fire:
the expired entry for `demo` is discarded by this sub-resource request. -/
theorem C5_counterexample :
    is_main_page ⟨"", "/demo/assets/"⟩ = true ∧
    stDemo "demo" = some ⟨7, 0⟩ ∧
    (get_application envMissing 60 stDemo 100 ⟨"", "/demo/assets/"⟩).2.1 "demo" = none := by
  exact ⟨rfl, rfl, rfl⟩

/-- C5 (amended): the root-page guard of the age check holds exactly for paths
that end in a slash or contain exactly one slash: the tenant mount root with or
without trailing slash, but also every deeper path with a trailing slash; only
paths whose last `/`-delimited component is non-empty (and which contain at
least two slashes) escape the check. -/
theorem C5_amended_root_guard (e : Environ) :
    is_main_page e =
      (decide ((get_path_info e).data.getLast? = some '/') ||
       decide (countSlash (get_path_info e).data = 1)) := by
  unfold is_main_page
  rw [← decideAnd, ← decideOr, ← decideOr]
  exact decide_eq_decide.mpr (rsplit_shape (get_path_info e).data)

/-- C6: the code's is-root test (rsplit the path on `/` keeping at most the last
two delimiters, then check for exactly two components, or three with an empty
last one) agrees on every request with the spec's description of that very
computation, phrased over the full component split regrouped at the last two
delimiters. -/
theorem C6_root_split_shape (e : Environ) : is_main_page e = isRootPageSpec e := by
  unfold is_main_page isRootPageSpec
  rw [rsplitTwo_eq_lastTwo]

/-- C7: a request whose first segment is `api` resolves to the fixed api app
with no validation, no cache read or write and no backing-store access; and
consequently, over any sequence of requests started from the empty cache, the
key `api` never appears in the instance cache. -/
theorem C7_api_reserved (env : Env) (ret : Int) :
    (∀ st now e, peek_path_info e = some "api" →
      get_application env ret st now e = (.ok (some .api), st, [.logInfo])) ∧
    (∀ reqs : List (Int × Environ), runRequests env ret reqs emptyCache "api" = none) := by
  constructor
  · intro st now e hp
    exact ga_api hp
  · intro reqs
    rw [runRequests_api]
    rfl

/-- C7 witness at a concrete `/api/x` request. -/
theorem C7_api_reserved_witness :
    get_application envMissing 60 emptyCache 0 ⟨"", "/api/x"⟩ =
      (.ok (some .api), emptyCache, [.logInfo]) :=
  (C7_api_reserved envMissing 60).1 emptyCache 0 ⟨"", "/api/x"⟩ rfl

/-- C8: a first path segment that fails the allow-pattern is answered by
`BadRequest()`; the backing store is never queried and the instance cache is
returned exactly unchanged. -/
theorem C8_invalid_name (env : Env) (ret : Int) (st : Cache) (now : Int) (e : Environ)
    (name : String) (hp : peek_path_info e = some name)
    (hm : re_match_name name = false) :
    (dispatch env ret st now e).1 = .ok (.badRequest (pop_path_info e)) ∧
    (dispatch env ret st now e).2.1 = st ∧
    ∀ u, Ev.dbFind u ∉ (dispatch env ret st now e).2.2 := by
  have hapi : name ≠ "api" := by
    intro hx
    rw [hx] at hm
    have hv : re_match_name "api" = true := by decide
    rw [hv] at hm
    exact Bool.noConfusion hm
  have hga := @ga_badname env ret st now e name hp hapi hm
  unfold dispatch
  rw [hga]
  refine ⟨rfl, rfl, ?_⟩
  intro u
  simp

/-- C8 witness at the concrete invalid segment `a?b`. -/
theorem C8_invalid_name_witness :
    (dispatch envMissing 60 emptyCache 0 ⟨"", "/a?b/x"⟩).1 =
      .ok (.badRequest (pop_path_info ⟨"", "/a?b/x"⟩)) ∧
    (dispatch envMissing 60 emptyCache 0 ⟨"", "/a?b/x"⟩).2.1 = emptyCache ∧
    ∀ u, Ev.dbFind u ∉ (dispatch envMissing 60 emptyCache 0 ⟨"", "/a?b/x"⟩).2.2 :=
  C8_invalid_name envMissing 60 emptyCache 0 ⟨"", "/a?b/x"⟩ "a?b" rfl (by decide)

/-- C9: for a valid identifier present in the store and absent from the cache,
the first resolve performs exactly one store query and one build and installs
the handler stamped with the build time; a second resolve within the retention
period on a non-root path returns the very same handler with no store query, no
build, and the cache — including the installed timestamp — exactly unchanged. -/
theorem C9_build_once_then_hit (env : Env) (ret : Int) (st : Cache) (now now2 : Int)
    (e e2 : Environ) (name : String) (blob : Blob)
    (hp : peek_path_info e = some name) (hapi : name ≠ "api")
    (hm : re_match_name name = true) (habsent : st name = none)
    (hdb : env.db name = .found blob)
    (hp2 : peek_path_info e2 = some name) (hroot2 : is_main_page e2 = false)
    (hret : now2 - now ≤ ret) :
    get_application env ret st now e =
      (.ok (some (.dyn (env.build name blob))),
       cacheSet st name ⟨env.build name blob, now⟩,
       [.dbFind name, .build name, .logInfo]) ∧
    get_application env ret (cacheSet st name ⟨env.build name blob, now⟩) now2 e2 =
      (.ok (some (.dyn (env.build name blob))),
       cacheSet st name ⟨env.build name blob, now⟩, []) := by
  constructor
  · rw [ga_miss hp hapi hm habsent, fi_found hdb]
  · have hc2 : (cacheSet st name ⟨env.build name blob, now⟩) name =
        some ⟨env.build name blob, now⟩ := by
      simp [cacheSet]
    refine ga_hit hp2 hapi hm hc2 ?_
    rintro ⟨hmain, _⟩
    rw [hroot2] at hmain
    exact Bool.noConfusion hmain

/-- C9 witness: build at time 0 via `/demo`, hit at time 50 via the non-root
path `/demo/assets/x`. -/
theorem C9_build_once_then_hit_witness :
    get_application envFound 60 emptyCache 0 ⟨"", "/demo"⟩ =
      (.ok (some (.dyn 42)), cacheSet emptyCache "demo" ⟨42, 0⟩,
       [.dbFind "demo", .build "demo", .logInfo]) ∧
    get_application envFound 60 (cacheSet emptyCache "demo" ⟨42, 0⟩) 50
        ⟨"", "/demo/assets/x"⟩ =
      (.ok (some (.dyn 42)), cacheSet emptyCache "demo" ⟨42, 0⟩, []) :=
  C9_build_once_then_hit envFound 60 emptyCache 0 50 ⟨"", "/demo"⟩ ⟨"", "/demo/assets/x"⟩
    "demo" "B" rfl (by decide) (by decide) rfl rfl rfl (by decide) (by decide)

/-- C10: a stored record without a `dashapp` field behaves exactly like an
absent record: the dispatcher answers not-found on the original environ, never
calls the builder, installs nothing, and the whole dispatch outcome coincides
with the one produced by a store in which the record is absent. -/
theorem C10_record_without_field (env : Env) (ret : Int) (st : Cache) (now : Int)
    (e : Environ) (name : String)
    (hp : peek_path_info e = some name) (hapi : name ≠ "api")
    (hm : re_match_name name = true) (habsent : st name = none)
    (hdb : env.db name = .noField) :
    dispatch env ret st now e = (.ok (.notFound e), st, [.dbFind name]) ∧
    (∀ u, Ev.build u ∉ (dispatch env ret st now e).2.2) ∧
    dispatch { env with db := fun u => if u = name then .missing else env.db u } ret st now e =
      dispatch env ret st now e := by
  have h1 : get_application env ret st now e = (.ok none, st, [.dbFind name]) := by
    rw [ga_miss hp hapi hm habsent, fi_noField hdb]
  have h2 : get_application { env with db := fun u => if u = name then .missing else env.db u }
      ret st now e = (.ok none, st, [.dbFind name]) := by
    rw [ga_miss hp hapi hm habsent, fi_missing (by simp)]
  have hd1 : dispatch env ret st now e = (.ok (.notFound e), st, [.dbFind name]) := by
    unfold dispatch
    rw [h1]
  have hd2 : dispatch { env with db := fun u => if u = name then .missing else env.db u }
      ret st now e = (.ok (.notFound e), st, [.dbFind name]) := by
    unfold dispatch
    rw [h2]
  refine ⟨hd1, ?_, by rw [hd2, hd1]⟩
  intro u
  rw [hd1]
  simp

/-- C10 witness: the concrete store whose `demo` record lacks the field. -/
theorem C10_record_without_field_witness :
    dispatch envNoField 60 emptyCache 0 ⟨"", "/demo"⟩ =
      (.ok (.notFound ⟨"", "/demo"⟩), emptyCache, [.dbFind "demo"]) :=
  (C10_record_without_field envNoField 60 emptyCache 0 ⟨"", "/demo"⟩ "demo"
    rfl (by decide) (by decide) rfl rfl).1

end Dataviz
